import Mathlib

/-!
Shallow embedding of `stellargraph/data/unsupervised_sampler.py`
(`UnsupervisedSampler`), the batch generator for unsupervised
graph-representation learning.

The Python generator `UnsupervisedSampler.generator(batch_size)` is embedded
as explicit state passing over `GenState`.  External collaborators and
library randomness (`random.shuffle`, `random.random`, `random.choices`,
`walker.run`) are modeled as oracle functions bundled in `Oracle`, each
consuming an explicit call counter so a fixed oracle describes one fixed
random stream.  The weight values `degree ** 0.75` are carried at an
abstract type `W` (instantiated with `ℝ` and `Real.rpow` for the claim
about the sampling distribution); the generator only ever builds the weight
list and passes it to the `choices` oracle, exactly as the source passes
`sampling_distribution` to `random.choices`.

The generator's yield statements are modeled by appending to `GenState.yielded`;
in addition the state logs every appended positive pair (`posTrace`), every
appended negative pair (`negTrace`) and every request made to the Walker
(`walkReqs`), which are the observables the specification talks about.
-/

namespace StellarGraph

/-- Node identifiers (opaque, comparable in the source; `Nat` here). -/
abbrev Node := Nat

/-- A (target, context) pair, as appended by `positive_pairs.append((target, context))`. -/
abbrev Pair := Node × Node

/-- One yielded batch `(edge_ids, edge_labels)` from the generator. -/
abbrev Batch := List Pair × List Nat

/-- A request `walker.run(nodes=..., length=..., n=...)` made to the Walker
collaborator (lines 189-202 of the source). -/
structure WalkReq where
  nodes : List Node
  length : Nat
  n : Nat
  deriving DecidableEq, Repr

/-- The sampler configuration fixed at construction time (`__init__`):
root nodes `self.nodes`, the graph's node list and degree function,
`self.length`, `self.number_of_walks`, `self.bidirectional`,
`self.context_sampling`. -/
structure Config where
  nodes : List Node
  allNodes : List Node
  degree : Node → Nat
  length : Nat
  number_of_walks : Nat
  bidirectional : Bool
  context_sampling : Bool

/-- The oracle bundling the sampler's private random stream and the external
Walker collaborator.  Each function takes an explicit call counter, so a
fixed `Oracle` value denotes one fixed random stream / Walker behavior:
* `shuffleRoots k` models the `k`-th `self.random.shuffle(self.nodes)`;
* `uniform k` models the `k`-th `self.random.random()` draw (a value in [0,1));
* `walkRun k nodes length n` models the `k`-th `self.walker.run(...)` call,
  returning the list of walks;
* `choices population weights k` models the `k`-th
  `self.random.choices(population, weights=..., k=1)[0]` draw;
* `shuffleBatch k` models the `k`-th `self.random.shuffle(edge_ids_labels)`. -/
structure Oracle (W : Type) where
  shuffleRoots : Nat → List Node → List Node
  uniform : Nat → ℚ
  walkRun : Nat → List Node → Nat → Nat → List (List Node)
  choices : List Node → List W → Nat → Node
  shuffleBatch : Nat → List (Pair × Nat) → List (Pair × Nat)

/-- The mutable state of one `generator` call: the in-flight accumulators
(`positive_pairs`, `negative_pairs`, `sample_counter`) and root list of the
source, the oracle call counters, plus append-only logs of the observable
events (pairs appended, walker requests, batches yielded). -/
structure GenState where
  roots : List Node
  iterCount : Nat
  positive_pairs : List Pair
  negative_pairs : List Pair
  sample_counter : Nat
  uCount : Nat
  walkCount : Nat
  drawCount : Nat
  batchCount : Nat
  posTrace : List Pair
  negTrace : List Pair
  walkReqs : List WalkReq
  yielded : List Batch
  deriving DecidableEq, Repr

/-- The effective walk length for one root (lines 181-184):
`int(np.ceil(self.length * self.random.random()))` when `context_sampling`
is set, and `self.length` otherwise. -/
def effectiveLength (cfg : Config) (u : ℚ) : Nat :=
  if cfg.context_sampling then (Int.ceil ((cfg.length : ℚ) * u)).toNat else cfg.length

/-- Lines 222-239: when `sample_counter == batch_size`, concatenate
positives then negatives, build the `1`/`0` label list, zip, shuffle the
zipped list, unzip, and yield; then the accumulators are cleared. -/
def maybeEmit {W : Type} (o : Oracle W) (batch_size : Nat) (st : GenState) : GenState :=
  if st.sample_counter = batch_size then
    let all_pairs := st.positive_pairs ++ st.negative_pairs
    let all_targets :=
      List.replicate st.positive_pairs.length 1 ++ List.replicate st.negative_pairs.length 0
    let edge_ids_labels := o.shuffleBatch st.batchCount (all_pairs.zip all_targets)
    { st with
        positive_pairs := []
        negative_pairs := []
        sample_counter := 0
        batchCount := st.batchCount + 1
        yielded := st.yielded ++ [(edge_ids_labels.map Prod.fst, edge_ids_labels.map Prod.snd)] }
  else st

/-- One iteration of the `for _ in range(2)` body (lines 212-220 plus the
emission check): append the positive pair, draw and append the negative
pair sharing the same target, bump `sample_counter` twice, and run the
batch-size check. -/
def roundStep {W : Type} (cfg : Config) (o : Oracle W) (sdist : List W) (batch_size : Nat)
    (target context : Node) (st : GenState) : GenState :=
  let st1 :=
    { st with
        positive_pairs := st.positive_pairs ++ [(target, context)]
        posTrace := st.posTrace ++ [(target, context)]
        sample_counter := st.sample_counter + 1 }
  let random_sample := o.choices cfg.allNodes sdist st1.drawCount
  let st2 :=
    { st1 with
        negative_pairs := st1.negative_pairs ++ [(target, random_sample)]
        negTrace := st1.negTrace ++ [(target, random_sample)]
        drawCount := st1.drawCount + 1
        sample_counter := st1.sample_counter + 1 }
  maybeEmit o batch_size st2

/-- The `for _ in range(2)` loop (lines 211-243), with the conditional
`break` when `self.bidirectional is False` and the swap
`target, context = context, target` otherwise; the final values of the
`target`/`context` variables are returned, since the enclosing context loop
reads the mutated `target`. -/
def doRounds {W : Type} (cfg : Config) (o : Oracle W) (sdist : List W) (batch_size : Nat) :
    Nat → Node → Node → GenState → GenState × Node × Node
  | 0, target, context, st => (st, target, context)
  | k + 1, target, context, st =>
      let st1 := roundStep cfg o sdist batch_size target context st
      if cfg.bidirectional = false then (st1, target, context)
      else doRounds cfg o sdist batch_size k context target st1

/-- The `for context in context_window` loop (lines 206-243), skipping
self pairs (`if context == target: continue`) and threading the possibly
mutated `target` variable into the next iteration. -/
def doContexts {W : Type} (cfg : Config) (o : Oracle W) (sdist : List W) (batch_size : Nat) :
    List Node → Node → GenState → GenState
  | [], _, st => st
  | context :: rest, target, st =>
      if context = target then doContexts cfg o sdist batch_size rest target st
      else
        let r := doRounds cfg o sdist batch_size 2 target context st
        doContexts cfg o sdist batch_size rest r.2.1 r.1

/-- Processing of one root node (lines 180-243): choose the walk length,
request exactly one walk (`n=1`) for the single root from the Walker, take
`walk[0]` as the walk, use its head as `target` and its tail as
`context_window`.  (Per the Walker contract a returned walk is non-empty
and starts at the root; an empty walk — on which the Python `walk[0][0]`
would raise — contributes nothing here.) -/
def processRoot {W : Type} (cfg : Config) (o : Oracle W) (sdist : List W) (batch_size : Nat)
    (node : Node) (st : GenState) : GenState :=
  let walk_length := effectiveLength cfg (o.uniform st.uCount)
  let st1 := if cfg.context_sampling then { st with uCount := st.uCount + 1 } else st
  let walks := o.walkRun st1.walkCount [node] walk_length 1
  let st2 :=
    { st1 with
        walkCount := st1.walkCount + 1
        walkReqs := st1.walkReqs ++ [⟨[node], walk_length, 1⟩] }
  match walks.headD [] with
  | [] => st2
  | target :: context_window => doContexts cfg o sdist batch_size context_window target st2

/-- The `for node in self.nodes` loop (line 179). -/
def processRoots {W : Type} (cfg : Config) (o : Oracle W) (sdist : List W) (batch_size : Nat) :
    List Node → GenState → GenState
  | [], st => st
  | node :: rest, st =>
      processRoots cfg o sdist batch_size rest (processRoot cfg o sdist batch_size node st)

/-- One iteration of the outer `while not done` loop (lines 177-179):
shuffle the root list in place, then iterate over it. -/
def outerIter {W : Type} (cfg : Config) (o : Oracle W) (sdist : List W) (batch_size : Nat)
    (st : GenState) : GenState :=
  let shuffled := o.shuffleRoots st.iterCount st.roots
  processRoots cfg o sdist batch_size shuffled
    { st with roots := shuffled, iterCount := st.iterCount + 1 }

/-- The outer `while not done` loop, fuel-indexed: `runIters fuel` runs
`fuel` iterations of the (in the source, unbounded) outer loop.  `done` is
never set in the source, so the loop has no exit of its own; any finite
prefix of the run is captured by some fuel. -/
def runIters {W : Type} (cfg : Config) (o : Oracle W) (sdist : List W) (batch_size : Nat) :
    Nat → GenState → GenState
  | 0, st => st
  | k + 1, st => runIters cfg o sdist batch_size k (outerIter cfg o sdist batch_size st)

/-- The state at the start of a `generator` call (lines 165-170). -/
def initState (cfg : Config) : GenState :=
  { roots := cfg.nodes
    iterCount := 0
    positive_pairs := []
    negative_pairs := []
    sample_counter := 0
    uCount := 0
    walkCount := 0
    drawCount := 0
    batchCount := 0
    posTrace := []
    negTrace := []
    walkReqs := []
    yielded := [] }

/-- The Python value passed as `batch_size`: `None`, an `int`, or any
other (non-`int`) object. -/
inductive PyVal where
  | pyNone : PyVal
  | pyInt : Int → PyVal
  | pyOther : PyVal
  deriving DecidableEq, Repr

/-- Which validation constraint of `_check_parameter_values` failed
(each corresponds to one distinct raise site, lines 255-285). -/
inductive BatchSizeError where
  | missingBatch : BatchSizeError
  | notInteger : BatchSizeError
  | notPositive : BatchSizeError
  | notEven : BatchSizeError
  deriving DecidableEq, Repr

/-- `UnsupervisedSampler._check_parameter_values` (lines 245-285), checks
in source order: `batch_size is None`, `type(batch_size) != int`,
`batch_size < 1`, `batch_size % 2 != 0`.  On success it hands back the
validated batch size. -/
def check_parameter_values : PyVal → Except BatchSizeError Nat
  | PyVal.pyNone => Except.error BatchSizeError.missingBatch
  | PyVal.pyOther => Except.error BatchSizeError.notInteger
  | PyVal.pyInt n =>
      if n < 1 then Except.error BatchSizeError.notPositive
      else if n % 2 ≠ 0 then Except.error BatchSizeError.notEven
      else Except.ok n.toNat

/-- `UnsupervisedSampler.generator` (lines 143-243): validate `batch_size`,
snapshot the node list and build the degree-skewed sampling distribution
once (lines 170-174), then enter the production loop for `fuel` outer
iterations. -/
def generator {W : Type} (cfg : Config) (o : Oracle W) (wgt : Nat → W) (batch_size : PyVal)
    (fuel : Nat) : Except BatchSizeError GenState :=
  match check_parameter_values batch_size with
  | Except.error e => Except.error e
  | Except.ok bs =>
      let sampling_distribution := cfg.allNodes.map (fun nd => wgt (cfg.degree nd))
      Except.ok (runIters cfg o sampling_distribution bs fuel (initState cfg))

/-- The weight of one node in the negative-sampling distribution:
`degrees[n] ** 0.75` (line 174). -/
noncomputable def pow75 (d : Nat) : ℝ := (d : ℝ) ^ (0.75 : ℝ)

/-- The node2vec sampling distribution `[degrees[n] ** 0.75 for n in all_nodes]`
(lines 173-174), built once per generation call. -/
noncomputable def samplingDistribution (cfg : Config) : List ℝ :=
  cfg.allNodes.map (fun nd => pow75 (cfg.degree nd))

/-- What one emitted batch looks like as a function of the pre-shuffle
pair list: zip with `half` ones then `half` zeros, shuffle with the `k`-th
batch shuffle, and project the two components. -/
def emitView {W : Type} (o : Oracle W) (half k : Nat) (pairs : List Pair) : Batch :=
  let zl := o.shuffleBatch k (pairs.zip (List.replicate half 1 ++ List.replicate half 0))
  (zl.map Prod.fst, zl.map Prod.snd)

/-! Unfolding and frame lemmas. -/

theorem maybeEmit_eq_of_ne {W : Type} (o : Oracle W) (bs : Nat) (st : GenState)
    (h : st.sample_counter ≠ bs) : maybeEmit o bs st = st := by
  simp [maybeEmit, h]

theorem maybeEmit_eq_of_eq {W : Type} (o : Oracle W) (bs : Nat) (st : GenState)
    (h : st.sample_counter = bs) :
    maybeEmit o bs st =
      { st with
          positive_pairs := []
          negative_pairs := []
          sample_counter := 0
          batchCount := st.batchCount + 1
          yielded := st.yielded ++
            [((o.shuffleBatch st.batchCount
                ((st.positive_pairs ++ st.negative_pairs).zip
                  (List.replicate st.positive_pairs.length 1 ++
                    List.replicate st.negative_pairs.length 0))).map Prod.fst,
              (o.shuffleBatch st.batchCount
                ((st.positive_pairs ++ st.negative_pairs).zip
                  (List.replicate st.positive_pairs.length 1 ++
                    List.replicate st.negative_pairs.length 0))).map Prod.snd)] } := by
  simp [maybeEmit, h]

theorem maybeEmit_posTrace {W : Type} (o : Oracle W) (bs : Nat) (st : GenState) :
    (maybeEmit o bs st).posTrace = st.posTrace := by
  unfold maybeEmit; split <;> rfl

theorem maybeEmit_negTrace {W : Type} (o : Oracle W) (bs : Nat) (st : GenState) :
    (maybeEmit o bs st).negTrace = st.negTrace := by
  unfold maybeEmit; split <;> rfl

theorem maybeEmit_drawCount {W : Type} (o : Oracle W) (bs : Nat) (st : GenState) :
    (maybeEmit o bs st).drawCount = st.drawCount := by
  unfold maybeEmit; split <;> rfl

theorem maybeEmit_uCount {W : Type} (o : Oracle W) (bs : Nat) (st : GenState) :
    (maybeEmit o bs st).uCount = st.uCount := by
  unfold maybeEmit; split <;> rfl

theorem maybeEmit_walkCount {W : Type} (o : Oracle W) (bs : Nat) (st : GenState) :
    (maybeEmit o bs st).walkCount = st.walkCount := by
  unfold maybeEmit; split <;> rfl

theorem maybeEmit_walkReqs {W : Type} (o : Oracle W) (bs : Nat) (st : GenState) :
    (maybeEmit o bs st).walkReqs = st.walkReqs := by
  unfold maybeEmit; split <;> rfl

theorem maybeEmit_roots {W : Type} (o : Oracle W) (bs : Nat) (st : GenState) :
    (maybeEmit o bs st).roots = st.roots := by
  unfold maybeEmit; split <;> rfl

theorem maybeEmit_iterCount {W : Type} (o : Oracle W) (bs : Nat) (st : GenState) :
    (maybeEmit o bs st).iterCount = st.iterCount := by
  unfold maybeEmit; split <;> rfl

theorem roundStep_eq {W : Type} (cfg : Config) (o : Oracle W) (sdist : List W) (bs : Nat)
    (target context : Node) (st : GenState) :
    roundStep cfg o sdist bs target context st =
      maybeEmit o bs
        { st with
            positive_pairs := st.positive_pairs ++ [(target, context)]
            negative_pairs :=
              st.negative_pairs ++ [(target, o.choices cfg.allNodes sdist st.drawCount)]
            sample_counter := st.sample_counter + 1 + 1
            drawCount := st.drawCount + 1
            posTrace := st.posTrace ++ [(target, context)]
            negTrace := st.negTrace ++ [(target, o.choices cfg.allNodes sdist st.drawCount)] } :=
  rfl

theorem roundStep_posTrace {W : Type} (cfg : Config) (o : Oracle W) (sdist : List W) (bs : Nat)
    (target context : Node) (st : GenState) :
    (roundStep cfg o sdist bs target context st).posTrace = st.posTrace ++ [(target, context)] := by
  rw [roundStep_eq, maybeEmit_posTrace]

theorem roundStep_negTrace {W : Type} (cfg : Config) (o : Oracle W) (sdist : List W) (bs : Nat)
    (target context : Node) (st : GenState) :
    (roundStep cfg o sdist bs target context st).negTrace =
      st.negTrace ++ [(target, o.choices cfg.allNodes sdist st.drawCount)] := by
  rw [roundStep_eq, maybeEmit_negTrace]

theorem roundStep_drawCount {W : Type} (cfg : Config) (o : Oracle W) (sdist : List W) (bs : Nat)
    (target context : Node) (st : GenState) :
    (roundStep cfg o sdist bs target context st).drawCount = st.drawCount + 1 := by
  rw [roundStep_eq, maybeEmit_drawCount]

/-! The run invariant.

`Inv cfg o sdist bs st` collects the facts maintained by the generator at
every loop boundary: the accumulators hold exactly the pairs appended since
the last emission, the counter is twice the accumulator length and strictly
below `bs`, every yielded batch is the shuffle of the corresponding trace
segments (positives first), positives are never self pairs, every negative
shares its target with the positive appended just before it and carries the
node drawn by the corresponding `choices` call, and Walker requests are
single-root, single-walk requests of the effective length. -/

structure Inv {W : Type} (cfg : Config) (o : Oracle W) (sdist : List W) (bs : Nat)
    (st : GenState) : Prop where
  len_pn : st.positive_pairs.length = st.negative_pairs.length
  counter_eq : st.sample_counter = 2 * st.positive_pairs.length
  counter_lt : st.sample_counter < bs
  posAcc : st.positive_pairs = st.posTrace.drop (st.batchCount * (bs / 2))
  negAcc : st.negative_pairs = st.negTrace.drop (st.batchCount * (bs / 2))
  posLen : st.posTrace.length = st.batchCount * (bs / 2) + st.positive_pairs.length
  negLen : st.negTrace.length = st.batchCount * (bs / 2) + st.negative_pairs.length
  drawEq : st.drawCount = st.negTrace.length
  yieldLen : st.yielded.length = st.batchCount
  yieldVal : ∀ k, k < st.batchCount →
    st.yielded[k]? = some (emitView o (bs / 2) k
      ((st.posTrace.drop (k * (bs / 2))).take (bs / 2) ++
        (st.negTrace.drop (k * (bs / 2))).take (bs / 2)))
  posNoSelf : ∀ p ∈ st.posTrace, p.1 ≠ p.2
  negTargets : ∀ i : Nat, (st.negTrace[i]?).map Prod.fst = (st.posTrace[i]?).map Prod.fst
  negDraws : ∀ i : Nat, ∀ pr ∈ st.negTrace[i]?, pr.2 = o.choices cfg.allNodes sdist i
  uEq : st.uCount = (if cfg.context_sampling then st.walkReqs.length else 0)
  walkEq : st.walkCount = st.walkReqs.length
  reqVal : ∀ k : Nat, ∀ r ∈ st.walkReqs[k]?,
    (∃ nd, r.nodes = [nd]) ∧ r.n = 1 ∧ r.length = effectiveLength cfg (o.uniform k)

theorem inv_init {W : Type} (cfg : Config) (o : Oracle W) (sdist : List W) (bs : Nat)
    (hbs : 0 < bs) : Inv cfg o sdist bs (initState cfg) := by
  constructor <;> simp [initState, hbs]

/-- Appending to a list does not change a segment wholly inside the
original list. -/
theorem seg_append {α : Type} (l l' : List α) (m n : Nat) (h : m + n ≤ l.length) :
    ((l ++ l').drop m).take n = (l.drop m).take n := by
  rw [List.drop_append_of_le_length (by omega),
    List.take_append_of_le_length (by simp; omega)]

/-- Indexing into a list extended by one element. -/
theorem getElem?_append_single {α : Type} (l : List α) (x : α) (i : Nat) :
    (l ++ [x])[i]? = if i < l.length then l[i]? else if i = l.length then some x else none := by
  rw [List.getElem?_append]
  split
  · rfl
  · rcases Nat.lt_trichotomy i l.length with h | h | h
    · omega
    · simp [h]
    · have h1 : ¬ i = l.length := by omega
      have h2 : ([x] : List α).length ≤ i - l.length := by simp; omega
      simp [h1, List.getElem?_eq_none h2]

/-- The batch built at an emission point is the `emitView` of the
concatenated accumulators, once both accumulators have length `half`. -/
theorem emit_batch_eq {W : Type} (o : Oracle W) (P N : List Pair) (half k : Nat)
    (hP : P.length = half) (hN : N.length = half) :
    ((o.shuffleBatch k ((P ++ N).zip (List.replicate P.length 1 ++ List.replicate N.length 0))).map
        Prod.fst,
      (o.shuffleBatch k
          ((P ++ N).zip (List.replicate P.length 1 ++ List.replicate N.length 0))).map
        Prod.snd) = emitView o half k (P ++ N) := by
  rw [hP, hN]
  rfl

/-- Preservation of the run invariant by one round (one positive append,
one negative append, one emission check). -/
theorem inv_roundStep {W : Type} (cfg : Config) (o : Oracle W) (sdist : List W) (bs : Nat)
    (target context : Node) (st : GenState)
    (hbs2 : 2 ≤ bs) (hbse : bs % 2 = 0) (hne : target ≠ context)
    (h : Inv cfg o sdist bs st) :
    Inv cfg o sdist bs (roundStep cfg o sdist bs target context st) := by
  obtain ⟨hlen, hc, hlt, hpa, hna, hpl, hnl, hdr, hyl, hyv, hns, hnt, hnd, hue, hwe, hrv⟩ := h
  have hb2 : 2 * (bs / 2) = bs := Nat.mul_div_cancel' (Nat.dvd_of_mod_eq_zero hbse)
  have hLL : st.posTrace.length = st.negTrace.length := by omega
  rw [roundStep_eq]
  by_cases hcase :
      (({ st with
            positive_pairs := st.positive_pairs ++ [(target, context)]
            negative_pairs :=
              st.negative_pairs ++ [(target, o.choices cfg.allNodes sdist st.drawCount)]
            sample_counter := st.sample_counter + 1 + 1
            drawCount := st.drawCount + 1
            posTrace := st.posTrace ++ [(target, context)]
            negTrace := st.negTrace ++ [(target, o.choices cfg.allNodes sdist st.drawCount)]
          } : GenState)).sample_counter = bs
  case neg =>
    rw [maybeEmit_eq_of_ne _ _ _ hcase]
    have hcase' : st.sample_counter + 1 + 1 ≠ bs := hcase
    constructor
    case len_pn => simp [hlen]
    case counter_eq => simp; omega
    case counter_lt => simp; omega
    case posAcc =>
      show st.positive_pairs ++ _ = (st.posTrace ++ _).drop (st.batchCount * (bs / 2))
      rw [List.drop_append_of_le_length (by omega), hpa]
    case negAcc =>
      show st.negative_pairs ++ _ = (st.negTrace ++ _).drop (st.batchCount * (bs / 2))
      rw [List.drop_append_of_le_length (by omega), hna]
    case posLen => simp; omega
    case negLen => simp; omega
    case drawEq => simp; omega
    case yieldLen => exact hyl
    case yieldVal =>
      intro k hk
      show st.yielded[k]? = some (emitView o (bs / 2) k _)
      rw [seg_append _ _ _ _ (by
            have : (k + 1) * (bs / 2) ≤ st.batchCount * (bs / 2) :=
              Nat.mul_le_mul_right _ hk
            rw [Nat.succ_mul] at this
            omega),
        seg_append _ _ _ _ (by
            have : (k + 1) * (bs / 2) ≤ st.batchCount * (bs / 2) :=
              Nat.mul_le_mul_right _ hk
            rw [Nat.succ_mul] at this
            omega)]
      exact hyv k hk
    case posNoSelf =>
      intro p hp
      rcases List.mem_append.mp hp with hp | hp
      · exact hns p hp
      · simp at hp
        rw [hp]
        exact hne
    case negTargets =>
      intro i
      show ((st.negTrace ++ _)[i]?).map Prod.fst = ((st.posTrace ++ _)[i]?).map Prod.fst
      rw [getElem?_append_single, getElem?_append_single, hLL]
      by_cases h1 : i < st.negTrace.length
      · simp only [if_pos h1]
        exact hnt i
      · by_cases h2 : i = st.negTrace.length <;> simp [h1, h2]
    case negDraws =>
      intro i pr hpr
      show pr.2 = _
      rw [show (({ st with
            positive_pairs := st.positive_pairs ++ [(target, context)]
            negative_pairs :=
              st.negative_pairs ++ [(target, o.choices cfg.allNodes sdist st.drawCount)]
            sample_counter := st.sample_counter + 1 + 1
            drawCount := st.drawCount + 1
            posTrace := st.posTrace ++ [(target, context)]
            negTrace := st.negTrace ++ [(target, o.choices cfg.allNodes sdist st.drawCount)]
          } : GenState)).negTrace =
          st.negTrace ++ [(target, o.choices cfg.allNodes sdist st.drawCount)] from rfl,
        getElem?_append_single] at hpr
      by_cases h1 : i < st.negTrace.length
      · rw [if_pos h1] at hpr
        exact hnd i pr hpr
      · by_cases h2 : i = st.negTrace.length
        · rw [if_neg h1, if_pos h2] at hpr
          simp at hpr
          rw [← hpr, h2, ← hdr]
        · rw [if_neg h1, if_neg h2] at hpr
          simp at hpr
    case uEq => exact hue
    case walkEq => exact hwe
    case reqVal => exact hrv
  case pos =>
    rw [maybeEmit_eq_of_eq _ _ _ hcase]
    have hcase' : st.sample_counter + 1 + 1 = bs := hcase
    have hplen : st.positive_pairs.length + 1 = bs / 2 := by omega
    constructor
    case len_pn => rfl
    case counter_eq => rfl
    case counter_lt => show 0 < bs; omega
    case posAcc =>
      show ([] : List Pair) = (st.posTrace ++ _).drop ((st.batchCount + 1) * (bs / 2))
      refine (List.drop_eq_nil_of_le ?_).symm
      simp [Nat.succ_mul]
      omega
    case negAcc =>
      show ([] : List Pair) = (st.negTrace ++ _).drop ((st.batchCount + 1) * (bs / 2))
      refine (List.drop_eq_nil_of_le ?_).symm
      simp [Nat.succ_mul]
      omega
    case posLen =>
      show (st.posTrace ++ _).length = (st.batchCount + 1) * (bs / 2) + 0
      simp [Nat.succ_mul]
      omega
    case negLen =>
      show (st.negTrace ++ _).length = (st.batchCount + 1) * (bs / 2) + 0
      simp [Nat.succ_mul]
      omega
    case drawEq =>
      show st.drawCount + 1 =
        (st.negTrace ++ [(target, o.choices cfg.allNodes sdist st.drawCount)]).length
      simp
      omega
    case yieldLen =>
      show (st.yielded ++ _).length = st.batchCount + 1
      simp [hyl]
    case yieldVal =>
      intro k hk
      have hk2 : k < st.batchCount + 1 := hk
      rw [getElem?_append_single]
      by_cases h1 : k < st.yielded.length
      · rw [if_pos h1]
        rw [seg_append _ _ _ _ (by
              have : (k + 1) * (bs / 2) ≤ st.batchCount * (bs / 2) :=
                Nat.mul_le_mul_right _ (by omega)
              rw [Nat.succ_mul] at this
              omega),
          seg_append _ _ _ _ (by
              have : (k + 1) * (bs / 2) ≤ st.batchCount * (bs / 2) :=
                Nat.mul_le_mul_right _ (by omega)
              rw [Nat.succ_mul] at this
              omega)]
        exact hyv k (by omega)
      · have hkb : k = st.batchCount := by omega
        rw [if_neg h1, if_pos (by omega : k = st.yielded.length)]
        have hposd : (st.posTrace ++ [(target, context)]).drop (k * (bs / 2)) =
            st.positive_pairs ++ [(target, context)] := by
          rw [hkb, List.drop_append_of_le_length (by omega), hpa]
        have hnegd : (st.negTrace ++
              [(target, o.choices cfg.allNodes sdist st.drawCount)]).drop (k * (bs / 2)) =
            st.negative_pairs ++ [(target, o.choices cfg.allNodes sdist st.drawCount)] := by
          rw [hkb, List.drop_append_of_le_length (by omega), hna]
        have hposl : (st.positive_pairs ++ [(target, context)]).length = bs / 2 := by
          simp
          omega
        have hnegl : (st.negative_pairs ++
            [(target, o.choices cfg.allNodes sdist st.drawCount)]).length = bs / 2 := by
          simp
          omega
        have hseg1 : ((st.posTrace ++ [(target, context)]).drop (k * (bs / 2))).take (bs / 2) =
            st.positive_pairs ++ [(target, context)] := by
          rw [hposd, ← hposl, List.take_length]
        have hseg2 : ((st.negTrace ++
              [(target, o.choices cfg.allNodes sdist st.drawCount)]).drop
                (k * (bs / 2))).take (bs / 2) =
            st.negative_pairs ++ [(target, o.choices cfg.allNodes sdist st.drawCount)] := by
          rw [hnegd, ← hnegl, List.take_length]
        rw [hseg1, hseg2, ← emit_batch_eq o _ _ _ _ hposl hnegl, hkb]
    case posNoSelf =>
      intro p hp
      rcases List.mem_append.mp hp with hp | hp
      · exact hns p hp
      · simp at hp
        rw [hp]
        exact hne
    case negTargets =>
      intro i
      show ((st.negTrace ++ _)[i]?).map Prod.fst = ((st.posTrace ++ _)[i]?).map Prod.fst
      rw [getElem?_append_single, getElem?_append_single, hLL]
      by_cases h1 : i < st.negTrace.length
      · simp only [if_pos h1]
        exact hnt i
      · by_cases h2 : i = st.negTrace.length <;> simp [h1, h2]
    case negDraws =>
      intro i pr hpr
      show pr.2 = _
      rw [show ∀ y : List Batch, (({ st with
            positive_pairs := ([] : List Pair)
            negative_pairs := ([] : List Pair)
            sample_counter := 0
            drawCount := st.drawCount + 1
            batchCount := st.batchCount + 1
            posTrace := st.posTrace ++ [(target, context)]
            negTrace := st.negTrace ++ [(target, o.choices cfg.allNodes sdist st.drawCount)]
            yielded := y
          } : GenState)).negTrace =
          st.negTrace ++ [(target, o.choices cfg.allNodes sdist st.drawCount)] from
          fun _ => rfl] at hpr
      rw [getElem?_append_single] at hpr
      by_cases h1 : i < st.negTrace.length
      · rw [if_pos h1] at hpr
        exact hnd i pr hpr
      · by_cases h2 : i = st.negTrace.length
        · rw [if_neg h1, if_pos h2] at hpr
          simp at hpr
          rw [← hpr, h2, ← hdr]
        · rw [if_neg h1, if_neg h2] at hpr
          simp at hpr
    case uEq => exact hue
    case walkEq => exact hwe
    case reqVal => exact hrv

/-- With `context_sampling` off, the effective walk length is the
configured length, whatever `u` is. -/
theorem effectiveLength_of_not_sampling (cfg : Config) (u : ℚ)
    (h : cfg.context_sampling = false) : effectiveLength cfg u = cfg.length := by
  simp [effectiveLength, h]

theorem inv_doRounds {W : Type} (cfg : Config) (o : Oracle W) (sdist : List W) (bs : Nat)
    (k : Nat) (target context : Node) (st : GenState)
    (hbs2 : 2 ≤ bs) (hbse : bs % 2 = 0) (hne : target ≠ context)
    (h : Inv cfg o sdist bs st) :
    Inv cfg o sdist bs (doRounds cfg o sdist bs k target context st).1 := by
  induction k generalizing target context st with
  | zero => exact h
  | succ k ih =>
      rw [doRounds]
      by_cases hb : cfg.bidirectional = false
      · simp only [hb, if_true]
        exact inv_roundStep cfg o sdist bs target context st hbs2 hbse hne h
      · simp only [hb, if_false]
        exact ih context target _ (Ne.symm hne)
          (inv_roundStep cfg o sdist bs target context st hbs2 hbse hne h)

/-- After the (at most two) rounds for one context node, the `target`
variable holds the same node as before the rounds: with bidirectional mode
off the loop breaks before the swap; with it on the swap runs twice. -/
theorem doRounds_two_target {W : Type} (cfg : Config) (o : Oracle W) (sdist : List W)
    (bs : Nat) (target context : Node) (st : GenState) :
    (doRounds cfg o sdist bs 2 target context st).2.1 = target := by
  rw [doRounds]
  by_cases hb : cfg.bidirectional = false
  · simp [hb]
  · simp only [hb, if_false]
    rw [doRounds]
    simp [hb, doRounds]

theorem inv_doContexts {W : Type} (cfg : Config) (o : Oracle W) (sdist : List W) (bs : Nat)
    (ctxs : List Node) (target : Node) (st : GenState)
    (hbs2 : 2 ≤ bs) (hbse : bs % 2 = 0)
    (h : Inv cfg o sdist bs st) :
    Inv cfg o sdist bs (doContexts cfg o sdist bs ctxs target st) := by
  induction ctxs generalizing target st with
  | nil => exact h
  | cons context rest ih =>
      rw [doContexts]
      by_cases hc : context = target
      · simp only [hc, if_true]
        exact ih target st h
      · simp only [hc, if_false]
        exact ih _ _ (inv_doRounds cfg o sdist bs 2 target context st hbs2 hbse
          (fun he => hc he.symm) h)

/-- `Inv` does not mention `roots` or `iterCount`. -/
theorem inv_set_roots {W : Type} (cfg : Config) (o : Oracle W) (sdist : List W) (bs : Nat)
    (st : GenState) (l : List Node) (j : Nat) (h : Inv cfg o sdist bs st) :
    Inv cfg o sdist bs { st with roots := l, iterCount := j } :=
  ⟨h.len_pn, h.counter_eq, h.counter_lt, h.posAcc, h.negAcc, h.posLen, h.negLen, h.drawEq,
    h.yieldLen, h.yieldVal, h.posNoSelf, h.negTargets, h.negDraws, h.uEq, h.walkEq, h.reqVal⟩

theorem inv_processRoot {W : Type} (cfg : Config) (o : Oracle W) (sdist : List W) (bs : Nat)
    (node : Node) (st : GenState)
    (hbs2 : 2 ≤ bs) (hbse : bs % 2 = 0)
    (h : Inv cfg o sdist bs st) :
    Inv cfg o sdist bs (processRoot cfg o sdist bs node st) := by
  rw [processRoot]
  by_cases hcs : cfg.context_sampling
  all_goals simp only [hcs, if_true, if_false, Bool.false_eq_true]
  · have h2 : Inv cfg o sdist bs
        { st with
            uCount := st.uCount + 1
            walkCount := st.walkCount + 1
            walkReqs := st.walkReqs ++
              [⟨[node], effectiveLength cfg (o.uniform st.uCount), 1⟩] } := by
      refine ⟨h.len_pn, h.counter_eq, h.counter_lt, h.posAcc, h.negAcc, h.posLen, h.negLen,
        h.drawEq, h.yieldLen, h.yieldVal, h.posNoSelf, h.negTargets, h.negDraws, ?_, ?_, ?_⟩
      · show st.uCount + 1 = _
        rw [h.uEq]
        simp [hcs]
      · show st.walkCount + 1 = _
        rw [h.walkEq]
        simp
      · intro k r hr
        show _ ∧ _ ∧ _
        rw [show (({ st with
              uCount := st.uCount + 1
              walkCount := st.walkCount + 1
              walkReqs := st.walkReqs ++
                [⟨[node], effectiveLength cfg (o.uniform st.uCount), 1⟩] } : GenState)).walkReqs =
            st.walkReqs ++ [⟨[node], effectiveLength cfg (o.uniform st.uCount), 1⟩] from rfl,
          getElem?_append_single] at hr
        by_cases h1 : k < st.walkReqs.length
        · rw [if_pos h1] at hr
          exact h.reqVal k r hr
        · by_cases h2 : k = st.walkReqs.length
          · rw [if_neg h1, if_pos h2] at hr
            simp at hr
            have hu : st.uCount = k := by rw [h.uEq, if_pos hcs, h2]
            rw [← hr, ← hu]
            exact ⟨⟨node, rfl⟩, rfl, rfl⟩
          · rw [if_neg h1, if_neg h2] at hr
            simp at hr
    split
    · exact h2
    · exact inv_doContexts cfg o sdist bs _ _ _ hbs2 hbse h2
  · have h2 : Inv cfg o sdist bs
        { st with
            walkCount := st.walkCount + 1
            walkReqs := st.walkReqs ++
              [⟨[node], effectiveLength cfg (o.uniform st.uCount), 1⟩] } := by
      refine ⟨h.len_pn, h.counter_eq, h.counter_lt, h.posAcc, h.negAcc, h.posLen, h.negLen,
        h.drawEq, h.yieldLen, h.yieldVal, h.posNoSelf, h.negTargets, h.negDraws, ?_, ?_, ?_⟩
      · show st.uCount = _
        rw [h.uEq]
        simp [hcs]
      · show st.walkCount + 1 = _
        rw [h.walkEq]
        simp
      · intro k r hr
        show _ ∧ _ ∧ _
        rw [show (({ st with
              walkCount := st.walkCount + 1
              walkReqs := st.walkReqs ++
                [⟨[node], effectiveLength cfg (o.uniform st.uCount), 1⟩] } : GenState)).walkReqs =
            st.walkReqs ++ [⟨[node], effectiveLength cfg (o.uniform st.uCount), 1⟩] from rfl,
          getElem?_append_single] at hr
        by_cases h1 : k < st.walkReqs.length
        · rw [if_pos h1] at hr
          exact h.reqVal k r hr
        · by_cases h2 : k = st.walkReqs.length
          · rw [if_neg h1, if_pos h2] at hr
            simp at hr
            rw [← hr]
            refine ⟨⟨node, rfl⟩, rfl, ?_⟩
            rw [effectiveLength_of_not_sampling cfg _ (by simpa using hcs),
              effectiveLength_of_not_sampling cfg _ (by simpa using hcs)]
          · rw [if_neg h1, if_neg h2] at hr
            simp at hr
    split
    · exact h2
    · exact inv_doContexts cfg o sdist bs _ _ _ hbs2 hbse h2

theorem inv_processRoots {W : Type} (cfg : Config) (o : Oracle W) (sdist : List W) (bs : Nat)
    (l : List Node) (st : GenState)
    (hbs2 : 2 ≤ bs) (hbse : bs % 2 = 0)
    (h : Inv cfg o sdist bs st) :
    Inv cfg o sdist bs (processRoots cfg o sdist bs l st) := by
  induction l generalizing st with
  | nil => exact h
  | cons node rest ih =>
      rw [processRoots]
      exact ih _ (inv_processRoot cfg o sdist bs node st hbs2 hbse h)

theorem inv_outerIter {W : Type} (cfg : Config) (o : Oracle W) (sdist : List W) (bs : Nat)
    (st : GenState) (hbs2 : 2 ≤ bs) (hbse : bs % 2 = 0)
    (h : Inv cfg o sdist bs st) :
    Inv cfg o sdist bs (outerIter cfg o sdist bs st) := by
  rw [outerIter]
  exact inv_processRoots cfg o sdist bs _ _ hbs2 hbse
    (inv_set_roots cfg o sdist bs st _ _ h)

theorem inv_runIters {W : Type} (cfg : Config) (o : Oracle W) (sdist : List W) (bs : Nat)
    (fuel : Nat) (st : GenState) (hbs2 : 2 ≤ bs) (hbse : bs % 2 = 0)
    (h : Inv cfg o sdist bs st) :
    Inv cfg o sdist bs (runIters cfg o sdist bs fuel st) := by
  induction fuel generalizing st with
  | zero => exact h
  | succ k ih =>
      rw [runIters]
      exact ih _ (inv_outerIter cfg o sdist bs st hbs2 hbse h)

/-- Validation success characterized: it succeeds exactly on even positive
integers, handing back the batch size. -/
theorem check_ok_iff (v : PyVal) (bs : Nat) :
    check_parameter_values v = Except.ok bs ↔
      ∃ n : Int, v = PyVal.pyInt n ∧ 1 ≤ n ∧ n % 2 = 0 ∧ n.toNat = bs := by
  constructor
  · intro h
    cases v with
    | pyNone => simp [check_parameter_values] at h
    | pyOther => simp [check_parameter_values] at h
    | pyInt n =>
        refine ⟨n, rfl, ?_⟩
        rw [check_parameter_values] at h
        by_cases h1 : n < 1
        · simp [h1] at h
        · by_cases h2 : n % 2 ≠ 0
          · simp [h1, h2] at h
          · simp [h1, h2] at h
            exact ⟨by omega, by omega, h⟩
  · rintro ⟨n, rfl, h1, h2, h3⟩
    rw [check_parameter_values, if_neg (by omega), if_neg (by simp [h2]), h3]

/-- On a validated batch size the run state of `generator` satisfies the
invariant. -/
theorem inv_generator {W : Type} (cfg : Config) (o : Oracle W) (wgt : Nat → W) (v : PyVal)
    (fuel : Nat) (st : GenState)
    (h : generator cfg o wgt v fuel = Except.ok st) :
    ∃ n : Int, v = PyVal.pyInt n ∧ 1 ≤ n ∧ n % 2 = 0 ∧
      st = runIters cfg o (cfg.allNodes.map (fun nd => wgt (cfg.degree nd))) n.toNat fuel
            (initState cfg) ∧
      Inv cfg o (cfg.allNodes.map (fun nd => wgt (cfg.degree nd))) n.toNat st := by
  rw [generator] at h
  rcases hck : check_parameter_values v with e | bs
  · rw [hck] at h
    simp at h
  · rw [hck] at h
    simp at h
    obtain ⟨n, rfl, h1, h2, h3⟩ := (check_ok_iff v bs).mp hck
    refine ⟨n, rfl, h1, h2, ?_, ?_⟩
    · rw [h3, ← h]
    · rw [← h, h3]
      refine inv_runIters _ _ _ _ _ _ ?_ ?_ (inv_init _ _ _ _ (by omega))
      · omega
      · omega

/-! Shape of yielded batches. -/

/-- Every batch in `yielded` is the `emitView` of two full trace segments
of length `bs / 2` each (positives first). -/
theorem yielded_mem_emitView {W : Type} (cfg : Config) (o : Oracle W) (sdist : List W)
    (bs : Nat) (st : GenState) (hbs2 : 2 ≤ bs)
    (hInv : Inv cfg o sdist bs st) (b : Batch) (hb : b ∈ st.yielded) :
    ∃ k, k < st.batchCount ∧
      b = emitView o (bs / 2) k
        ((st.posTrace.drop (k * (bs / 2))).take (bs / 2) ++
          (st.negTrace.drop (k * (bs / 2))).take (bs / 2)) ∧
      ((st.posTrace.drop (k * (bs / 2))).take (bs / 2)).length = bs / 2 ∧
      ((st.negTrace.drop (k * (bs / 2))).take (bs / 2)).length = bs / 2 := by
  obtain ⟨k, hk⟩ := (List.mem_iff_getElem?).mp hb
  have hyl := hInv.yieldLen
  have hklt : k < st.batchCount := by
    by_contra hge
    rw [List.getElem?_eq_none (by omega : st.yielded.length ≤ k)] at hk
    exact Option.noConfusion hk
  have hkk : (k + 1) * (bs / 2) ≤ st.batchCount * (bs / 2) := Nat.mul_le_mul_right _ hklt
  rw [Nat.succ_mul] at hkk
  have hpl := hInv.posLen
  have hnl := hInv.negLen
  refine ⟨k, hklt, ?_, ?_, ?_⟩
  · have := hInv.yieldVal k hklt
    rw [hk] at this
    exact (Option.some.injEq _ _).mp this.symm |>.symm
  · rw [List.length_take, List.length_drop]
    omega
  · rw [List.length_take, List.length_drop]
    omega

/-- The shape facts about one `emitView` batch, assuming the batch shuffle
permutes its input. -/
theorem emitView_shape {W : Type} (o : Oracle W) (half k : Nat) (pairs : List Pair)
    (hperm : ∀ j l, List.Perm (o.shuffleBatch j l) l)
    (hlen : pairs.length = half + half) :
    (emitView o half k pairs).1.length = half + half ∧
    (emitView o half k pairs).2.length = half + half ∧
    (emitView o half k pairs).2.count 1 = half ∧
    (emitView o half k pairs).2.count 0 = half ∧
    List.Perm ((emitView o half k pairs).1.zip (emitView o half k pairs).2)
      (pairs.zip (List.replicate half 1 ++ List.replicate half 0)) := by
  have hlab : (List.replicate half 1 ++ List.replicate half (0 : Nat)).length = half + half := by
    simp
  have hzl : (pairs.zip (List.replicate half 1 ++ List.replicate half (0 : Nat))).length =
      half + half := by
    rw [List.length_zip, hlen, hlab]
    omega
  have hp := hperm k (pairs.zip (List.replicate half 1 ++ List.replicate half 0))
  have hlzl : (o.shuffleBatch k
      (pairs.zip (List.replicate half 1 ++ List.replicate half 0))).length = half + half := by
    rw [hp.length_eq, hzl]
  have hsnd : ((pairs.zip (List.replicate half 1 ++ List.replicate half (0 : Nat))).map
      Prod.snd) = List.replicate half 1 ++ List.replicate half 0 := by
    refine List.map_snd_zip _ _ ?_
    rw [hlen, hlab]
  have hzipid : (emitView o half k pairs).1.zip (emitView o half k pairs).2 =
      o.shuffleBatch k (pairs.zip (List.replicate half 1 ++ List.replicate half 0)) := by
    unfold emitView
    rw [List.zip_map']
    simp
  refine ⟨?_, ?_, ?_, ?_, ?_⟩
  · unfold emitView
    simp [hlzl]
  · unfold emitView
    simp [hlzl]
  · show ((o.shuffleBatch k _).map Prod.snd).count 1 = half
    rw [(hp.map Prod.snd).count_eq, hsnd]
    simp [List.count_replicate]
  · show ((o.shuffleBatch k _).map Prod.snd).count 0 = half
    rw [(hp.map Prod.snd).count_eq, hsnd]
    simp [List.count_replicate]
  · rw [hzipid]
    exact hp

/-- C1: for every valid configuration and every even batch size accepted by
validation, every batch yielded by `generator(batch_size)` is a pair
`(pairs, labels)` of sequences of length exactly `batch_size`, with exactly
`batch_size / 2` entries labeled 1 and `batch_size / 2` labeled 0, and the
i-th pair corresponds to the i-th label: the zipped (pair, label) sequence
of the emitted batch is a permutation of the pre-shuffle zipped sequence,
so the pairing is preserved through the per-batch shuffle.  No shorter
batch is ever emitted. -/
theorem C1_every_batch_exact {W : Type} (cfg : Config) (o : Oracle W) (wgt : Nat → W)
    (n : Int) (fuel : Nat) (st : GenState)
    (hperm : ∀ j l, List.Perm (o.shuffleBatch j l) l)
    (hok : generator cfg o wgt (PyVal.pyInt n) fuel = Except.ok st) :
    ∀ b ∈ st.yielded,
      b.1.length = n.toNat ∧ b.2.length = n.toNat ∧
      b.2.count 1 = n.toNat / 2 ∧ b.2.count 0 = n.toNat / 2 ∧
      ∃ pairs : List Pair, pairs.length = n.toNat ∧
        List.Perm (b.1.zip b.2)
          (pairs.zip (List.replicate (n.toNat / 2) 1 ++ List.replicate (n.toNat / 2) 0)) := by
  intro b hb
  obtain ⟨m, hm, h1, h2, hst, hInv⟩ := inv_generator cfg o wgt _ fuel st hok
  obtain ⟨rfl⟩ : m = n := by
    cases hm
    rfl
  have hbs2 : 2 ≤ n.toNat := by omega
  have hhalf : n.toNat / 2 + n.toNat / 2 = n.toNat := by omega
  obtain ⟨k, hklt, hbeq, hl1, hl2⟩ :=
    yielded_mem_emitView cfg o _ n.toNat st hbs2 hInv b hb
  have hlen : ((st.posTrace.drop (k * (n.toNat / 2))).take (n.toNat / 2) ++
      (st.negTrace.drop (k * (n.toNat / 2))).take (n.toNat / 2)).length =
      n.toNat / 2 + n.toNat / 2 := by
    rw [List.length_append, hl1, hl2]
  obtain ⟨s1, s2, s3, s4, s5⟩ := emitView_shape o (n.toNat / 2) k _ hperm hlen
  rw [hbeq]
  exact ⟨by rw [s1, hhalf], by rw [s2, hhalf], s3, s4,
    ⟨_, by rw [hlen, hhalf], s5⟩⟩

/-! Concrete instances used to witness the general theorems. -/

/-- A small concrete configuration: two graph nodes `0, 1`, root list `[0]`,
walk length 2, unidirectional, no length sampling. -/
def cfg1 : Config :=
  { nodes := [0]
    allNodes := [0, 1]
    degree := fun _ => 1
    length := 2
    number_of_walks := 1
    bidirectional := false
    context_sampling := false }

/-- A concrete deterministic oracle: identity shuffles, the Walker always
returns the single walk `[root, 1]`, and `choices` always draws the first
population element (node `0`). -/
def orc1 : Oracle Nat :=
  { shuffleRoots := fun _ l => l
    uniform := fun _ => 0
    walkRun := fun _ nodes _ _ => [[nodes.headD 0, 1]]
    choices := fun pop _ _ => pop.headD 0
    shuffleBatch := fun _ l => l }

/-- The run state of `generator(batch_size = 2)` on `cfg1`/`orc1` after one
outer iteration. -/
def stC1 : GenState :=
  (generator cfg1 orc1 (fun d => d) (PyVal.pyInt 2) 1).toOption.getD (initState cfg1)

/-- Witness for C1 at a concrete input: the single batch produced by
`generator(2)` on `cfg1`/`orc1` has the exact shape the theorem asserts. -/
theorem C1_witness :
    (([((0 : Nat), (1 : Nat)), ((0 : Nat), (0 : Nat))], ([1, 0] : List Nat)) : Batch).1.length =
        (2 : Int).toNat ∧
      (([((0 : Nat), (1 : Nat)), ((0 : Nat), (0 : Nat))], ([1, 0] : List Nat)) : Batch).2.length =
        (2 : Int).toNat ∧
      (([((0 : Nat), (1 : Nat)), ((0 : Nat), (0 : Nat))], ([1, 0] : List Nat)) : Batch).2.count 1 =
        (2 : Int).toNat / 2 ∧
      (([((0 : Nat), (1 : Nat)), ((0 : Nat), (0 : Nat))], ([1, 0] : List Nat)) : Batch).2.count 0 =
        (2 : Int).toNat / 2 ∧
      ∃ pairs : List Pair, pairs.length = (2 : Int).toNat ∧
        List.Perm
          ((([((0 : Nat), (1 : Nat)), ((0 : Nat), (0 : Nat))], ([1, 0] : List Nat)) : Batch).1.zip
            (([((0 : Nat), (1 : Nat)), ((0 : Nat), (0 : Nat))], ([1, 0] : List Nat)) : Batch).2)
          (pairs.zip
            (List.replicate ((2 : Int).toNat / 2) 1 ++ List.replicate ((2 : Int).toNat / 2) 0)) :=
  C1_every_batch_exact cfg1 orc1 (fun d => d) 2 1 stC1 (fun _ l => List.Perm.refl l)
    rfl ([(0, 1), (0, 0)], [1, 0]) (by decide)

/-- C3: in any run of `generator`, every positive pair has exactly one
negative companion (the two traces have equal length and the `i`-th
negative shares the `i`-th positive's target), and the `i`-th negative's
context is exactly the result of the `i`-th weighted `choices` draw over
the full node population with the weight sequence
`[degree(node) ** 0.75 for node in all_nodes]` — the distribution computed
once at the start of the generation call (`samplingDistribution cfg` is the
snapshot built before the production loop, and every draw of the whole run
uses it).  One draw per negative, so no rejection or retry is performed:
the number of `choices` calls equals the number of negatives appended. -/
theorem C3_negative_draws (cfg : Config) (o : Oracle ℝ) (n : Int) (fuel : Nat) (st : GenState)
    (hok : generator cfg o pow75 (PyVal.pyInt n) fuel = Except.ok st) :
    st.negTrace.length = st.posTrace.length ∧
    st.drawCount = st.negTrace.length ∧
    ∀ i : Nat, ∀ pr ∈ st.negTrace[i]?,
      (st.posTrace[i]?).map Prod.fst = some pr.1 ∧
      pr.2 = o.choices cfg.allNodes (samplingDistribution cfg) i := by
  obtain ⟨m, hm, h1, h2, hst, hInv⟩ := inv_generator cfg o pow75 _ fuel st hok
  have hsd : cfg.allNodes.map (fun nd => pow75 (cfg.degree nd)) = samplingDistribution cfg := rfl
  rw [hsd] at hInv
  refine ⟨?_, hInv.drawEq, ?_⟩
  · have := hInv.posLen
    have := hInv.negLen
    have := hInv.len_pn
    omega
  · intro i pr hpr
    constructor
    · rw [← hInv.negTargets i, hpr]
      rfl
    · exact hInv.negDraws i pr hpr

/-- The concrete oracle `orc1` at weight type `ℝ` (the drawn node ignores
the weight values, as any fixed random stream does). -/
def orcR : Oracle ℝ :=
  { shuffleRoots := fun _ l => l
    uniform := fun _ => 0
    walkRun := fun _ nodes _ _ => [[nodes.headD 0, 1]]
    choices := fun pop _ _ => pop.headD 0
    shuffleBatch := fun _ l => l }

/-- The run state of `generator(2)` on `cfg1`/`orcR` with the real-valued
`degree ** 0.75` weights. -/
noncomputable def stC3 : GenState :=
  (generator cfg1 orcR pow75 (PyVal.pyInt 2) 1).toOption.getD (initState cfg1)

/-- Witness for C3 at a concrete input. -/
theorem C3_witness :
    stC3.negTrace.length = stC3.posTrace.length ∧
    stC3.drawCount = stC3.negTrace.length ∧
    ∀ i : Nat, ∀ pr ∈ stC3.negTrace[i]?,
      (stC3.posTrace[i]?).map Prod.fst = some pr.1 ∧
      pr.2 = orcR.choices cfg1.allNodes (samplingDistribution cfg1) i :=
  C3_negative_draws cfg1 orcR 2 1 stC3 rfl

/-- In every yielded batch, a (pair, label) entry with label 1 comes (via
the shuffle permutation) from the positive trace, whose pairs are never
self pairs. -/
theorem yielded_label_one_ne {W : Type} (cfg : Config) (o : Oracle W) (sdist : List W)
    (bs : Nat) (st : GenState) (hbs2 : 2 ≤ bs)
    (hperm : ∀ j l, List.Perm (o.shuffleBatch j l) l)
    (hInv : Inv cfg o sdist bs st) :
    ∀ b ∈ st.yielded, ∀ q ∈ b.1.zip b.2, q.2 = 1 → q.1.1 ≠ q.1.2 := by
  intro b hb q hq hq1
  obtain ⟨k, hklt, hbeq, hl1, hl2⟩ := yielded_mem_emitView cfg o sdist bs st hbs2 hInv b hb
  set P := (st.posTrace.drop (k * (bs / 2))).take (bs / 2) with hP
  set N := (st.negTrace.drop (k * (bs / 2))).take (bs / 2) with hN
  have hzipid : b.1.zip b.2 =
      o.shuffleBatch k ((P ++ N).zip (List.replicate (bs / 2) 1 ++ List.replicate (bs / 2) 0)) := by
    rw [hbeq]
    unfold emitView
    rw [List.zip_map']
    simp
  rw [hzipid] at hq
  have hq' := (hperm k _).mem_iff.mp hq
  rw [List.zip_append (by rw [hl1]; simp)] at hq'
  rcases List.mem_append.mp hq' with hin | hin
  · obtain ⟨hp1, _⟩ := List.of_mem_zip (by rw [← Prod.mk.eta (p := q)] at hin; exact hin)
    have hmem : q.1 ∈ st.posTrace :=
      List.drop_subset _ _ (List.take_subset _ _ hp1)
    exact hInv.posNoSelf q.1 hmem
  · obtain ⟨_, hp2⟩ := List.of_mem_zip (by rw [← Prod.mk.eta (p := q)] at hin; exact hin)
    have : q.2 = 0 := List.eq_of_mem_replicate hp2
    omega

/-- C4 (as stated) is falsified by the code: on `cfg1`/`orc1` the first
emitted batch contains the pair `(0, 0)` — a negative self pair — so it is
not true that every pair in every batch has target different from context. -/
theorem C4_counterexample :
    ∃ b ∈ stC1.yielded, ∃ p ∈ b.1, p.1 = p.2 := by
  decide

/-- C4 amended: no *positive* self pair is ever added to a batch — every
entry of an emitted batch labeled 1 has target different from context.
(Negative pairs are not self-filtered; see the counterexample.) -/
theorem C4_no_positive_self {W : Type} (cfg : Config) (o : Oracle W) (wgt : Nat → W)
    (n : Int) (fuel : Nat) (st : GenState)
    (hperm : ∀ j l, List.Perm (o.shuffleBatch j l) l)
    (hok : generator cfg o wgt (PyVal.pyInt n) fuel = Except.ok st) :
    ∀ b ∈ st.yielded, ∀ q ∈ b.1.zip b.2, q.2 = 1 → q.1.1 ≠ q.1.2 := by
  obtain ⟨m, hm, h1, h2, hst, hInv⟩ := inv_generator cfg o wgt _ fuel st hok
  have hm' : m = n := by cases hm; rfl
  subst hm'
  exact yielded_label_one_ne cfg o _ m.toNat st (by omega) hperm hInv

/-- Witness for the amended C4 at a concrete input: the label-1 entry
`((0, 1), 1)` of the batch emitted on `cfg1`/`orc1` is not a self pair. -/
theorem C4_witness :
    (([((0 : Nat), (1 : Nat)), ((0 : Nat), (0 : Nat))], ([1, 0] : List Nat)) : Batch) ∈
        stC1.yielded ∧
      ((0 : Nat), (1 : Nat)).1 ≠ ((0 : Nat), (1 : Nat)).2 :=
  ⟨by decide,
    C4_no_positive_self cfg1 orc1 (fun d => d) 2 1 stC1 (fun _ l => List.Perm.refl l) rfl
      ([(0, 1), (0, 0)], [1, 0]) (by decide) ((0, 1), 1) (by decide) rfl⟩

/-- C5: every emitted pair labeled 1 has target different from context
(self candidates are skipped before either round runs), while negative
pairs undergo no self-pair filtering: the draw ranges over the full node
population including the target, and for the concrete random stream
`orc1` an emitted pair labeled 0 has target equal to context. -/
theorem C5_positive_filtered_negative_not {W : Type} (cfg : Config) (o : Oracle W)
    (wgt : Nat → W) (n : Int) (fuel : Nat) (st : GenState)
    (hperm : ∀ j l, List.Perm (o.shuffleBatch j l) l)
    (hok : generator cfg o wgt (PyVal.pyInt n) fuel = Except.ok st) :
    (∀ b ∈ st.yielded, ∀ q ∈ b.1.zip b.2, q.2 = 1 → q.1.1 ≠ q.1.2) ∧
    (∃ b ∈ stC1.yielded, ∃ q ∈ b.1.zip b.2, q.2 = 0 ∧ q.1.1 = q.1.2) := by
  constructor
  · obtain ⟨m, hm, h1, h2, hst, hInv⟩ := inv_generator cfg o wgt _ fuel st hok
    have hm' : m = n := by cases hm; rfl
    subst hm'
    exact yielded_label_one_ne cfg o _ m.toNat st (by omega) hperm hInv
  · decide

/-- Witness for C5 at a concrete input. -/
theorem C5_witness :
    (∀ b ∈ stC1.yielded, ∀ q ∈ b.1.zip b.2, q.2 = 1 → q.1.1 ≠ q.1.2) ∧
    (∃ b ∈ stC1.yielded, ∃ q ∈ b.1.zip b.2, q.2 = 0 ∧ q.1.1 = q.1.2) :=
  C5_positive_filtered_negative_not cfg1 orc1 (fun d => d) 2 1 stC1
    (fun _ l => List.Perm.refl l) rfl

/-- C6: `batch_size` validation runs before the production loop: a missing
(`None`), non-integer, non-positive (< 1) or odd batch size makes
`generator` fail with the validation error naming the violated constraint
(in the source's check order), and the call produces no run state at all —
in particular no pair is appended and no batch is yielded for any fuel. -/
theorem C6_validation_eager :
    (∀ (W : Type) (cfg : Config) (o : Oracle W) (wgt : Nat → W) (fuel : Nat),
      generator cfg o wgt PyVal.pyNone fuel = Except.error BatchSizeError.missingBatch) ∧
    (∀ (W : Type) (cfg : Config) (o : Oracle W) (wgt : Nat → W) (fuel : Nat),
      generator cfg o wgt PyVal.pyOther fuel = Except.error BatchSizeError.notInteger) ∧
    (∀ (W : Type) (cfg : Config) (o : Oracle W) (wgt : Nat → W) (fuel : Nat) (n : Int),
      n < 1 →
        generator cfg o wgt (PyVal.pyInt n) fuel = Except.error BatchSizeError.notPositive) ∧
    (∀ (W : Type) (cfg : Config) (o : Oracle W) (wgt : Nat → W) (fuel : Nat) (n : Int),
      1 ≤ n → n % 2 ≠ 0 →
        generator cfg o wgt (PyVal.pyInt n) fuel = Except.error BatchSizeError.notEven) := by
  refine ⟨?_, ?_, ?_, ?_⟩
  · intro W cfg o wgt fuel
    rfl
  · intro W cfg o wgt fuel
    rfl
  · intro W cfg o wgt fuel n hn
    simp [generator, check_parameter_values, hn]
  · intro W cfg o wgt fuel n h1 h2
    rw [generator, check_parameter_values, if_neg (by omega), if_pos h2]

/-- Witness for C6 at concrete inputs: `batch_size` of `None`, a non-int,
`0` and `5` each fail with the error naming the violated constraint. -/
theorem C6_witness :
    generator cfg1 orc1 (fun d => d) PyVal.pyNone 3 = Except.error BatchSizeError.missingBatch ∧
    generator cfg1 orc1 (fun d => d) PyVal.pyOther 3 = Except.error BatchSizeError.notInteger ∧
    generator cfg1 orc1 (fun d => d) (PyVal.pyInt 0) 3 =
      Except.error BatchSizeError.notPositive ∧
    generator cfg1 orc1 (fun d => d) (PyVal.pyInt 5) 3 = Except.error BatchSizeError.notEven :=
  ⟨C6_validation_eager.1 Nat cfg1 orc1 (fun d => d) 3,
    C6_validation_eager.2.1 Nat cfg1 orc1 (fun d => d) 3,
    C6_validation_eager.2.2.1 Nat cfg1 orc1 (fun d => d) 3 0 (by decide),
    C6_validation_eager.2.2.2 Nat cfg1 orc1 (fun d => d) 3 5 (by decide) (by decide)⟩

/-- A configuration with length sampling (`context_sampling`) enabled. -/
def cfgS : Config :=
  { nodes := [0]
    allNodes := [0, 1]
    degree := fun _ => 1
    length := 2
    number_of_walks := 1
    bidirectional := false
    context_sampling := true }

/-- C7 as stated is falsified by the code at the concrete draw `u = 0`
(a value `random.random()` can return): with length sampling enabled and
configured length 2 the effective walk length is `ceil(2 * 0) = 0`, not at
least 1. -/
theorem C7_counterexample :
    effectiveLength cfgS 0 = 0 ∧ ¬ 1 ≤ effectiveLength cfgS 0 := by
  have h : effectiveLength cfgS 0 = 0 := by
    simp [effectiveLength, cfgS]
  exact ⟨h, by omega⟩

/-- C7 amended: in every `generator` run, the `k`-th Walker request asks
for exactly the effective walk length determined by the `k`-th uniform
draw; with length sampling enabled that length is `ceil(configured_length * u)`,
with it disabled it is the configured length; and the effective length is
at least 1 whenever the drawn `u` is positive (it is 0 exactly for `u = 0`,
which the claim's "always at least 1" missed). -/
theorem C7_effective_walk_length {W : Type} (cfg : Config) (o : Oracle W) (wgt : Nat → W)
    (n : Int) (fuel : Nat) (st : GenState)
    (hok : generator cfg o wgt (PyVal.pyInt n) fuel = Except.ok st) :
    (∀ k : Nat, ∀ r ∈ st.walkReqs[k]?, r.length = effectiveLength cfg (o.uniform k)) ∧
    (cfg.context_sampling = true →
      ∀ u : ℚ, effectiveLength cfg u = (Int.ceil ((cfg.length : ℚ) * u)).toNat) ∧
    (cfg.context_sampling = false → ∀ u : ℚ, effectiveLength cfg u = cfg.length) ∧
    (1 ≤ cfg.length → ∀ u : ℚ, 0 < u → 1 ≤ effectiveLength cfg u) := by
  obtain ⟨m, hm, h1, h2, hst, hInv⟩ := inv_generator cfg o wgt _ fuel st hok
  refine ⟨?_, ?_, ?_, ?_⟩
  · intro k r hr
    exact (hInv.reqVal k r hr).2.2
  · intro hcs u
    simp [effectiveLength, hcs]
  · intro hcs u
    simp [effectiveLength, hcs]
  · intro hl u hu
    rw [effectiveLength]
    split
    · have hq : (0 : ℚ) < (cfg.length : ℚ) * u := by
        apply mul_pos _ hu
        exact_mod_cast Nat.lt_of_lt_of_le Nat.zero_lt_one hl
      have := Int.ceil_pos.mpr hq
      omega
    · exact hl

/-- The deterministic oracle drawing `u = 1/2` from `random.random()`. -/
def orcS : Oracle Nat :=
  { shuffleRoots := fun _ l => l
    uniform := fun _ => 1 / 2
    walkRun := fun _ nodes _ _ => [[nodes.headD 0, 1]]
    choices := fun pop _ _ => pop.headD 0
    shuffleBatch := fun _ l => l }

/-- The run state of `generator(2)` on the length-sampling configuration. -/
def stC7 : GenState :=
  (generator cfgS orcS (fun d => d) (PyVal.pyInt 2) 1).toOption.getD (initState cfgS)

/-- Witness for the amended C7 at a concrete length-sampling input. -/
theorem C7_witness :
    (∀ k : Nat, ∀ r ∈ stC7.walkReqs[k]?, r.length = effectiveLength cfgS (orcS.uniform k)) ∧
    (cfgS.context_sampling = true →
      ∀ u : ℚ, effectiveLength cfgS u = (Int.ceil ((cfgS.length : ℚ) * u)).toNat) ∧
    (cfgS.context_sampling = false → ∀ u : ℚ, effectiveLength cfgS u = cfgS.length) ∧
    (1 ≤ cfgS.length → ∀ u : ℚ, 0 < u → 1 ≤ effectiveLength cfgS u) :=
  C7_effective_walk_length cfgS orcS (fun d => d) 2 1 stC7 rfl

/-! Pair extraction on a concrete walk shape. -/

theorem doRounds_two_of_not_bidir {W : Type} (cfg : Config) (o : Oracle W) (sdist : List W)
    (bs : Nat) (target context : Node) (st : GenState) (hb : cfg.bidirectional = false) :
    doRounds cfg o sdist bs 2 target context st =
      (roundStep cfg o sdist bs target context st, target, context) := by
  rw [doRounds]
  simp [hb]

theorem doRounds_two_of_bidir {W : Type} (cfg : Config) (o : Oracle W) (sdist : List W)
    (bs : Nat) (target context : Node) (st : GenState) (hb : cfg.bidirectional = true) :
    doRounds cfg o sdist bs 2 target context st =
      (roundStep cfg o sdist bs context target (roundStep cfg o sdist bs target context st),
        target, context) := by
  rw [doRounds]
  simp only [hb, Bool.true_eq_false, if_false]
  rw [doRounds]
  simp only [hb, Bool.true_eq_false, if_false]
  rw [doRounds]

/-- With `context_sampling` off, `processRoot` reduces to pair extraction
over the tail of the walk the Walker returned. -/
theorem processRoot_of_walk {W : Type} (cfg : Config) (o : Oracle W) (sdist : List W)
    (bs : Nat) (node target : Node) (cw : List Node) (st : GenState)
    (hcs : cfg.context_sampling = false)
    (hwalk : o.walkRun st.walkCount [node] cfg.length 1 = [target :: cw]) :
    processRoot cfg o sdist bs node st =
      doContexts cfg o sdist bs cw target
        { st with
            walkCount := st.walkCount + 1
            walkReqs := st.walkReqs ++ [⟨[node], cfg.length, 1⟩] } := by
  rw [processRoot]
  simp only [hcs, Bool.false_eq_true, if_false]
  rw [effectiveLength_of_not_sampling cfg _ hcs, hwalk]
  rfl

/-- A deterministic oracle whose Walker always returns the walk `[0, 0, 0]`
(a walk repeatedly revisiting its root, as a walker on a graph with a
self-loop can produce). -/
def orcW000 : Oracle Nat :=
  { shuffleRoots := fun _ l => l
    uniform := fun _ => 0
    walkRun := fun _ _ _ _ => [[0, 0, 0]]
    choices := fun pop _ _ => pop.headD 0
    shuffleBatch := fun _ l => l }

/-- C2 as stated quantifies over *any* walk `[a, b, c]`; it is falsified by
the code at the concrete walk `[0, 0, 0]`: both candidate contexts equal
the target, are skipped as self pairs, and the walk contributes 0 pair
appends instead of the asserted 4. -/
theorem C2_counterexample :
    (processRoot cfg1 orcW000 ([] : List Nat) 4 0 (initState cfg1)).posTrace = [] ∧
    (processRoot cfg1 orcW000 ([] : List Nat) 4 0 (initState cfg1)).posTrace ≠
      [(0, 0), (0, 0)] ∧
    (processRoot cfg1 orcW000 ([] : List Nat) 4 0 (initState cfg1)).negTrace = [] := by
  decide

/-- C2 amended (adding the hypotheses `b ≠ a` and `c ≠ a`, without which
the self-pair skip suppresses the corresponding contributions): for a walk
`[a, b, c]` returned by the Walker for a root, with length sampling
disabled, pair extraction appends — with bidirectional off — exactly the
positives `(a,b), (a,c)`, each immediately followed by one negative with
the same target (4 contributions); with bidirectional on, exactly the
positives `(a,b), (b,a), (a,c), (c,a)` each with one negative sharing its
target (8 contributions).  In particular after the two bidirectional
rounds for context `b` the target is restored to `a` before `c` is
processed. -/
theorem C2_walk_contributions {W : Type} (cfg : Config) (o : Oracle W) (sdist : List W)
    (bs : Nat) (node a b c : Node) (st : GenState)
    (hcs : cfg.context_sampling = false)
    (hwalk : o.walkRun st.walkCount [node] cfg.length 1 = [[a, b, c]])
    (hb : b ≠ a) (hc : c ≠ a) :
    (cfg.bidirectional = false →
      (processRoot cfg o sdist bs node st).posTrace = st.posTrace ++ [(a, b), (a, c)] ∧
      (processRoot cfg o sdist bs node st).negTrace = st.negTrace ++
        [(a, o.choices cfg.allNodes sdist st.drawCount),
          (a, o.choices cfg.allNodes sdist (st.drawCount + 1))]) ∧
    (cfg.bidirectional = true →
      (processRoot cfg o sdist bs node st).posTrace =
        st.posTrace ++ [(a, b), (b, a), (a, c), (c, a)] ∧
      (processRoot cfg o sdist bs node st).negTrace = st.negTrace ++
        [(a, o.choices cfg.allNodes sdist st.drawCount),
          (b, o.choices cfg.allNodes sdist (st.drawCount + 1)),
          (a, o.choices cfg.allNodes sdist (st.drawCount + 2)),
          (c, o.choices cfg.allNodes sdist (st.drawCount + 3))]) := by
  rw [processRoot_of_walk cfg o sdist bs node a [b, c] st hcs hwalk]
  set st2 : GenState :=
    { st with
        walkCount := st.walkCount + 1
        walkReqs := st.walkReqs ++ [⟨[node], cfg.length, 1⟩] } with hst2
  have hp2 : st2.posTrace = st.posTrace := rfl
  have hn2 : st2.negTrace = st.negTrace := rfl
  have hd2 : st2.drawCount = st.drawCount := rfl
  constructor
  · intro hbd
    rw [doContexts, if_neg hb, doRounds_two_of_not_bidir cfg o sdist bs a b st2 hbd]
    rw [doContexts, if_neg hc,
      doRounds_two_of_not_bidir cfg o sdist bs a c (roundStep cfg o sdist bs a b st2) hbd]
    rw [doContexts]
    constructor
    · simp [roundStep_posTrace, hp2]
    · simp [roundStep_negTrace, roundStep_drawCount, hn2, hd2]
  · intro hbd
    rw [doContexts, if_neg hb, doRounds_two_of_bidir cfg o sdist bs a b st2 hbd]
    rw [doContexts, if_neg hc, doRounds_two_of_bidir cfg o sdist bs a c _ hbd]
    rw [doContexts]
    constructor
    · simp [roundStep_posTrace, hp2]
    · simp [roundStep_negTrace, roundStep_drawCount, hn2, hd2]

/-- A bidirectional configuration over nodes `5, 6, 7` with walk length 3. -/
def cfgB2 : Config :=
  { nodes := [5]
    allNodes := [5, 6, 7]
    degree := fun _ => 1
    length := 3
    number_of_walks := 1
    bidirectional := true
    context_sampling := false }

/-- A deterministic oracle whose Walker always returns the walk `[5, 6, 7]`. -/
def orcW567 : Oracle Nat :=
  { shuffleRoots := fun _ l => l
    uniform := fun _ => 0
    walkRun := fun _ _ _ _ => [[5, 6, 7]]
    choices := fun pop _ _ => pop.headD 0
    shuffleBatch := fun _ l => l }

/-- Witness for the amended C2 at the concrete walk `[5, 6, 7]` with
bidirectional mode enabled. -/
theorem C2_witness :
    (cfgB2.bidirectional = false →
      (processRoot cfgB2 orcW567 ([] : List Nat) 4 5 (initState cfgB2)).posTrace =
        (initState cfgB2).posTrace ++ [(5, 6), (5, 7)] ∧
      (processRoot cfgB2 orcW567 ([] : List Nat) 4 5 (initState cfgB2)).negTrace =
        (initState cfgB2).negTrace ++
          [(5, orcW567.choices cfgB2.allNodes [] (initState cfgB2).drawCount),
            (5, orcW567.choices cfgB2.allNodes [] ((initState cfgB2).drawCount + 1))]) ∧
    (cfgB2.bidirectional = true →
      (processRoot cfgB2 orcW567 ([] : List Nat) 4 5 (initState cfgB2)).posTrace =
        (initState cfgB2).posTrace ++ [(5, 6), (6, 5), (5, 7), (7, 5)] ∧
      (processRoot cfgB2 orcW567 ([] : List Nat) 4 5 (initState cfgB2)).negTrace =
        (initState cfgB2).negTrace ++
          [(5, orcW567.choices cfgB2.allNodes [] (initState cfgB2).drawCount),
            (6, orcW567.choices cfgB2.allNodes [] ((initState cfgB2).drawCount + 1)),
            (5, orcW567.choices cfgB2.allNodes [] ((initState cfgB2).drawCount + 2)),
            (7, orcW567.choices cfgB2.allNodes [] ((initState cfgB2).drawCount + 3))]) :=
  C2_walk_contributions cfgB2 orcW567 [] 4 5 5 6 7 (initState cfgB2) rfl rfl
    (by decide) (by decide)

/-! The walks-per-root count is never read after construction. -/

theorem roundStep_nw {W : Type} (cfg : Config) (o : Oracle W) (sdist : List W) (bs : Nat)
    (m : Nat) (target context : Node) (st : GenState) :
    roundStep { cfg with number_of_walks := m } o sdist bs target context st =
      roundStep cfg o sdist bs target context st := rfl

theorem doRounds_nw {W : Type} (cfg : Config) (o : Oracle W) (sdist : List W) (bs : Nat)
    (m : Nat) (k : Nat) (target context : Node) (st : GenState) :
    doRounds { cfg with number_of_walks := m } o sdist bs k target context st =
      doRounds cfg o sdist bs k target context st := by
  induction k generalizing target context st with
  | zero => rfl
  | succ k ih =>
      rw [doRounds, doRounds, roundStep_nw]
      show (if cfg.bidirectional = false then _ else _) = _
      split
      · rfl
      · exact ih context target _

theorem doContexts_nw {W : Type} (cfg : Config) (o : Oracle W) (sdist : List W) (bs : Nat)
    (m : Nat) (ctxs : List Node) (target : Node) (st : GenState) :
    doContexts { cfg with number_of_walks := m } o sdist bs ctxs target st =
      doContexts cfg o sdist bs ctxs target st := by
  induction ctxs generalizing target st with
  | nil => rfl
  | cons context rest ih =>
      rw [doContexts, doContexts, doRounds_nw]
      split
      · exact ih target st
      · exact ih _ _

theorem processRoot_nw {W : Type} (cfg : Config) (o : Oracle W) (sdist : List W) (bs : Nat)
    (m : Nat) (node : Node) (st : GenState) :
    processRoot { cfg with number_of_walks := m } o sdist bs node st =
      processRoot cfg o sdist bs node st := by
  have hel : ∀ u : ℚ, effectiveLength { cfg with number_of_walks := m } u =
      effectiveLength cfg u := fun _ => rfl
  have hcs : ({ cfg with number_of_walks := m } : Config).context_sampling =
      cfg.context_sampling := rfl
  rw [processRoot, processRoot]
  simp only [hel, hcs, doContexts_nw]

theorem processRoots_nw {W : Type} (cfg : Config) (o : Oracle W) (sdist : List W) (bs : Nat)
    (m : Nat) (l : List Node) (st : GenState) :
    processRoots { cfg with number_of_walks := m } o sdist bs l st =
      processRoots cfg o sdist bs l st := by
  induction l generalizing st with
  | nil => rfl
  | cons node rest ih =>
      rw [processRoots, processRoots, processRoot_nw]
      exact ih _

theorem outerIter_nw {W : Type} (cfg : Config) (o : Oracle W) (sdist : List W) (bs : Nat)
    (m : Nat) (st : GenState) :
    outerIter { cfg with number_of_walks := m } o sdist bs st = outerIter cfg o sdist bs st := by
  rw [outerIter, outerIter, processRoots_nw]

theorem runIters_nw {W : Type} (cfg : Config) (o : Oracle W) (sdist : List W) (bs : Nat)
    (m : Nat) (fuel : Nat) (st : GenState) :
    runIters { cfg with number_of_walks := m } o sdist bs fuel st =
      runIters cfg o sdist bs fuel st := by
  induction fuel generalizing st with
  | zero => rfl
  | succ k ih =>
      rw [runIters, runIters, outerIter_nw]
      exact ih _

/-- C9: the configured walks-per-root count has no effect on generated
output beyond construction-time validation — two samplers identical except
for `number_of_walks`, fed the same random stream and Walker behavior,
produce identical run states (batches, traces and all) — and every request
the generator makes to the Walker asks for exactly one walk (`n = 1`) for
exactly one root. -/
theorem C9_number_of_walks_unused {W : Type} (cfg : Config) (o : Oracle W) (wgt : Nat → W)
    (m : Nat) (v : PyVal) (fuel : Nat) :
    generator { cfg with number_of_walks := m } o wgt v fuel = generator cfg o wgt v fuel ∧
    (∀ st, generator cfg o wgt v fuel = Except.ok st →
      ∀ k : Nat, ∀ r ∈ st.walkReqs[k]?, r.nodes.length = 1 ∧ r.n = 1) := by
  constructor
  · rw [generator, generator]
    rcases check_parameter_values v with e | bs
    · rfl
    · show Except.ok _ = Except.ok _
      rw [runIters_nw]
      rfl
  · intro st hok k r hr
    obtain ⟨n, hv, h1, h2, hst, hInv⟩ := inv_generator cfg o wgt v fuel st hok
    obtain ⟨⟨nd, hnd⟩, hn1, _⟩ := hInv.reqVal k r hr
    exact ⟨by rw [hnd]; rfl, hn1⟩

/-- Witness for C9 at a concrete input: changing `number_of_walks` from 1
to 7 leaves the run of `generator(2)` unchanged, and its Walker requests
are single-root single-walk requests. -/
theorem C9_witness :
    generator { cfg1 with number_of_walks := 7 } orc1 (fun d => d) (PyVal.pyInt 2) 1 =
        generator cfg1 orc1 (fun d => d) (PyVal.pyInt 2) 1 ∧
      (∀ st, generator cfg1 orc1 (fun d => d) (PyVal.pyInt 2) 1 = Except.ok st →
        ∀ k : Nat, ∀ r ∈ st.walkReqs[k]?, r.nodes.length = 1 ∧ r.n = 1) :=
  C9_number_of_walks_unused cfg1 orc1 (fun d => d) 7 (PyVal.pyInt 2) 1

/-- C10: no generated pair is lost or duplicated by batch emission.  In
any run of `generator(batch_size)`, the `k`-th yielded batch is exactly
the shuffle of the pairs appended between the `(k-1)`-th and `k`-th
emissions — the `k`-th half-size segment of the positive trace concatenated
before the `k`-th segment of the negative trace — and the accumulator reset
discards nothing: what remains in the accumulators after the run is exactly
the trace suffix beyond the emitted segments. -/
theorem C10_batches_partition_traces {W : Type} (cfg : Config) (o : Oracle W) (wgt : Nat → W)
    (n : Int) (fuel : Nat) (st : GenState)
    (hok : generator cfg o wgt (PyVal.pyInt n) fuel = Except.ok st) :
    st.yielded.length = st.batchCount ∧
    (∀ k, k < st.batchCount →
      st.yielded[k]? = some (emitView o (n.toNat / 2) k
        ((st.posTrace.drop (k * (n.toNat / 2))).take (n.toNat / 2) ++
          (st.negTrace.drop (k * (n.toNat / 2))).take (n.toNat / 2)))) ∧
    st.positive_pairs = st.posTrace.drop (st.batchCount * (n.toNat / 2)) ∧
    st.negative_pairs = st.negTrace.drop (st.batchCount * (n.toNat / 2)) := by
  obtain ⟨m, hm, h1, h2, hst, hInv⟩ := inv_generator cfg o wgt _ fuel st hok
  have hm' : m = n := by cases hm; rfl
  subst hm'
  exact ⟨hInv.yieldLen, hInv.yieldVal, hInv.posAcc, hInv.negAcc⟩

/-- The run state of `generator(2)` on the bidirectional variant of `cfg1`:
the walk `[0, 1]` produces the positive `(0, 1)` in batch 1, and its
mirrored pair `(1, 0)` — appended after the emission triggered between the
two bidirectional rounds — lands in batch 2 rather than being dropped. -/
def stC10 : GenState :=
  (generator { cfg1 with bidirectional := true } orc1 (fun d => d) (PyVal.pyInt 2)
      1).toOption.getD (initState cfg1)

/-- Witness for C10 at a concrete input, including the concrete
demonstration that the mirrored pair of a positive emitted in batch 1 is
placed in batch 2. -/
theorem C10_witness :
    (stC10.yielded.length = stC10.batchCount ∧
      (∀ k, k < stC10.batchCount →
        stC10.yielded[k]? = some (emitView orc1 ((2 : Int).toNat / 2) k
          ((stC10.posTrace.drop (k * ((2 : Int).toNat / 2))).take ((2 : Int).toNat / 2) ++
            (stC10.negTrace.drop (k * ((2 : Int).toNat / 2))).take ((2 : Int).toNat / 2)))) ∧
      stC10.positive_pairs = stC10.posTrace.drop (stC10.batchCount * ((2 : Int).toNat / 2)) ∧
      stC10.negative_pairs = stC10.negTrace.drop (stC10.batchCount * ((2 : Int).toNat / 2))) ∧
    stC10.posTrace = [(0, 1), (1, 0)] ∧
    stC10.yielded = [([(0, 1), (0, 0)], [1, 0]), ([(1, 0), (1, 0)], [1, 0])] :=
  ⟨C10_batches_partition_traces { cfg1 with bidirectional := true } orc1 (fun d => d) 2 1
      stC10 rfl,
    by decide, by decide⟩

/-! Productivity of the outer loop. -/

theorem roundStep_roots {W : Type} (cfg : Config) (o : Oracle W) (sdist : List W) (bs : Nat)
    (target context : Node) (st : GenState) :
    (roundStep cfg o sdist bs target context st).roots = st.roots := by
  rw [roundStep_eq, maybeEmit_roots]

theorem doRounds_roots {W : Type} (cfg : Config) (o : Oracle W) (sdist : List W) (bs : Nat)
    (k : Nat) (target context : Node) (st : GenState) :
    (doRounds cfg o sdist bs k target context st).1.roots = st.roots := by
  induction k generalizing target context st with
  | zero => rfl
  | succ k ih =>
      rw [doRounds]
      split
      · exact roundStep_roots cfg o sdist bs target context st
      · rw [ih]
        exact roundStep_roots cfg o sdist bs target context st

theorem doContexts_roots {W : Type} (cfg : Config) (o : Oracle W) (sdist : List W) (bs : Nat)
    (ctxs : List Node) (target : Node) (st : GenState) :
    (doContexts cfg o sdist bs ctxs target st).roots = st.roots := by
  induction ctxs generalizing target st with
  | nil => rfl
  | cons context rest ih =>
      rw [doContexts]
      split
      · exact ih target st
      · rw [ih, doRounds_roots]

theorem processRoot_roots {W : Type} (cfg : Config) (o : Oracle W) (sdist : List W) (bs : Nat)
    (node : Node) (st : GenState) :
    (processRoot cfg o sdist bs node st).roots = st.roots := by
  rw [processRoot]
  by_cases hcs : cfg.context_sampling
  all_goals simp only [hcs, if_true, if_false, Bool.false_eq_true]
  all_goals
    split
    · rfl
    · rw [doContexts_roots]

theorem processRoots_roots {W : Type} (cfg : Config) (o : Oracle W) (sdist : List W) (bs : Nat)
    (l : List Node) (st : GenState) :
    (processRoots cfg o sdist bs l st).roots = st.roots := by
  induction l generalizing st with
  | nil => rfl
  | cons node rest ih =>
      rw [processRoots, ih, processRoot_roots]

theorem doRounds_posTrace_mono {W : Type} (cfg : Config) (o : Oracle W) (sdist : List W)
    (bs : Nat) (k : Nat) (target context : Node) (st : GenState) :
    st.posTrace.length ≤ (doRounds cfg o sdist bs k target context st).1.posTrace.length := by
  induction k generalizing target context st with
  | zero => exact Nat.le_refl _
  | succ k ih =>
      rw [doRounds]
      split
      · rw [roundStep_posTrace]
        simp
      · refine Nat.le_trans ?_ (ih context target _)
        rw [roundStep_posTrace]
        simp

theorem doRounds_succ_posTrace_strict {W : Type} (cfg : Config) (o : Oracle W) (sdist : List W)
    (bs : Nat) (k : Nat) (target context : Node) (st : GenState) :
    st.posTrace.length + 1 ≤
      (doRounds cfg o sdist bs (k + 1) target context st).1.posTrace.length := by
  rw [doRounds]
  split
  · rw [roundStep_posTrace]
    simp
  · refine Nat.le_trans ?_ (doRounds_posTrace_mono cfg o sdist bs k context target _)
    rw [roundStep_posTrace]
    simp

theorem doContexts_posTrace_mono {W : Type} (cfg : Config) (o : Oracle W) (sdist : List W)
    (bs : Nat) (ctxs : List Node) (target : Node) (st : GenState) :
    st.posTrace.length ≤ (doContexts cfg o sdist bs ctxs target st).posTrace.length := by
  induction ctxs generalizing target st with
  | nil => exact Nat.le_refl _
  | cons context rest ih =>
      rw [doContexts]
      split
      · exact ih target st
      · exact Nat.le_trans (doRounds_posTrace_mono cfg o sdist bs 2 target context st) (ih _ _)

theorem doContexts_posTrace_strict {W : Type} (cfg : Config) (o : Oracle W) (sdist : List W)
    (bs : Nat) (ctxs : List Node) (target : Node) (st : GenState)
    (hprod : ∃ x ∈ ctxs, x ≠ target) :
    st.posTrace.length + 1 ≤ (doContexts cfg o sdist bs ctxs target st).posTrace.length := by
  induction ctxs generalizing target st with
  | nil => simp at hprod
  | cons context rest ih =>
      rw [doContexts]
      by_cases hc : context = target
      · rw [if_pos hc]
        refine ih target st ?_
        obtain ⟨x, hx, hxne⟩ := hprod
        rcases List.mem_cons.mp hx with hx | hx
        · exact absurd (hx.trans hc) hxne
        · exact ⟨x, hx, hxne⟩
      · rw [if_neg hc]
        refine Nat.le_trans ?_ (doContexts_posTrace_mono cfg o sdist bs rest _ _)
        exact doRounds_succ_posTrace_strict cfg o sdist bs 1 target context st

theorem processRoot_posTrace_mono {W : Type} (cfg : Config) (o : Oracle W) (sdist : List W)
    (bs : Nat) (node : Node) (st : GenState) :
    st.posTrace.length ≤ (processRoot cfg o sdist bs node st).posTrace.length := by
  rw [processRoot]
  by_cases hcs : cfg.context_sampling
  all_goals simp only [hcs, if_true, if_false, Bool.false_eq_true]
  all_goals
    split
    · exact Nat.le_refl _
    · refine Nat.le_trans (Nat.le_of_eq ?_) (doContexts_posTrace_mono cfg o sdist bs _ _ _)
      rfl

theorem processRoot_posTrace_strict {W : Type} (cfg : Config) (o : Oracle W) (sdist : List W)
    (bs : Nat) (node : Node) (st : GenState)
    (hwalk : ∀ k len : Nat, ∃ t : Node, ∃ cw : List Node,
      (o.walkRun k [node] len 1).headD [] = t :: cw ∧ ∃ x ∈ cw, x ≠ t) :
    st.posTrace.length + 1 ≤ (processRoot cfg o sdist bs node st).posTrace.length := by
  rw [processRoot]
  by_cases hcs : cfg.context_sampling
  all_goals simp only [hcs, if_true, if_false, Bool.false_eq_true]
  all_goals
    obtain ⟨t, cw, heq, hx⟩ := hwalk _ (effectiveLength cfg (o.uniform st.uCount))
    rw [heq]
    refine Nat.le_trans (Nat.le_of_eq ?_) (doContexts_posTrace_strict cfg o sdist bs cw t _ hx)
    rfl

theorem processRoots_posTrace_mono {W : Type} (cfg : Config) (o : Oracle W) (sdist : List W)
    (bs : Nat) (l : List Node) (st : GenState) :
    st.posTrace.length ≤ (processRoots cfg o sdist bs l st).posTrace.length := by
  induction l generalizing st with
  | nil => exact Nat.le_refl _
  | cons node rest ih =>
      rw [processRoots]
      exact Nat.le_trans (processRoot_posTrace_mono cfg o sdist bs node st) (ih _)

theorem processRoots_posTrace_strict {W : Type} (cfg : Config) (o : Oracle W) (sdist : List W)
    (bs : Nat) (l : List Node) (r : Node) (st : GenState) (hr : r ∈ l)
    (hwalk : ∀ k len : Nat, ∃ t : Node, ∃ cw : List Node,
      (o.walkRun k [r] len 1).headD [] = t :: cw ∧ ∃ x ∈ cw, x ≠ t) :
    st.posTrace.length + 1 ≤ (processRoots cfg o sdist bs l st).posTrace.length := by
  induction l generalizing st with
  | nil => simp at hr
  | cons node rest ih =>
      rw [processRoots]
      rcases List.mem_cons.mp hr with hr1 | hr1
      · refine Nat.le_trans ?_ (processRoots_posTrace_mono cfg o sdist bs rest _)
        rw [hr1] at hwalk
        exact processRoot_posTrace_strict cfg o sdist bs node st hwalk
      · exact Nat.le_trans
          (Nat.add_le_add_right (processRoot_posTrace_mono cfg o sdist bs node st) 1)
          (ih _ hr1)

theorem outerIter_growth {W : Type} (cfg : Config) (o : Oracle W) (sdist : List W) (bs : Nat)
    (r : Node) (st : GenState) (hr : r ∈ st.roots)
    (hshuf : ∀ k l, List.Perm (o.shuffleRoots k l) l)
    (hwalk : ∀ k len : Nat, ∃ t : Node, ∃ cw : List Node,
      (o.walkRun k [r] len 1).headD [] = t :: cw ∧ ∃ x ∈ cw, x ≠ t) :
    st.posTrace.length + 1 ≤ (outerIter cfg o sdist bs st).posTrace.length ∧
      r ∈ (outerIter cfg o sdist bs st).roots := by
  rw [outerIter]
  have hmem : r ∈ o.shuffleRoots st.iterCount st.roots := (hshuf _ _).mem_iff.mpr hr
  constructor
  · refine Nat.le_trans (Nat.le_of_eq ?_)
      (processRoots_posTrace_strict cfg o sdist bs _ r _ hmem hwalk)
    rfl
  · rw [processRoots_roots]
    exact hmem

theorem runIters_growth {W : Type} (cfg : Config) (o : Oracle W) (sdist : List W) (bs : Nat)
    (r : Node) (fuel : Nat) (st : GenState) (hr : r ∈ st.roots)
    (hshuf : ∀ k l, List.Perm (o.shuffleRoots k l) l)
    (hwalk : ∀ k len : Nat, ∃ t : Node, ∃ cw : List Node,
      (o.walkRun k [r] len 1).headD [] = t :: cw ∧ ∃ x ∈ cw, x ≠ t) :
    st.posTrace.length + fuel ≤ (runIters cfg o sdist bs fuel st).posTrace.length := by
  induction fuel generalizing st with
  | zero => exact Nat.le_refl _
  | succ k ih =>
      rw [runIters]
      obtain ⟨hgrow, hmem⟩ := outerIter_growth cfg o sdist bs r st hr hshuf hwalk
      refine Nat.le_trans ?_ (ih _ hmem)
      omega

/-- On a validated (even, positive) batch size, `generator` is the fueled
production loop started from the initial state. -/
theorem generator_ok_eq {W : Type} (cfg : Config) (o : Oracle W) (wgt : Nat → W) (n : Int)
    (fuel : Nat) (h1 : 1 ≤ n) (h2 : n % 2 = 0) :
    generator cfg o wgt (PyVal.pyInt n) fuel =
      Except.ok (runIters cfg o (cfg.allNodes.map fun nd => wgt (cfg.degree nd)) n.toNat fuel
        (initState cfg)) := by
  rw [generator, (check_ok_iff (PyVal.pyInt n) n.toNat).mpr ⟨n, rfl, h1, h2, rfl⟩]

/-- C8: the production loop never terminates on its own.  For any valid
even batch size and any root `r` of the configured root set whose walks
always contain at least one non-self context, requesting any number `N` of
batches succeeds: some amount of fuel (outer-loop iterations) makes the
run yield at least `N` batches — there is no exhaustion or terminal state;
only the consumer's demand (the fuel) bounds the output. -/
theorem C8_never_exhausts {W : Type} (cfg : Config) (o : Oracle W) (wgt : Nat → W) (n : Int)
    (r : Node) (h1 : 1 ≤ n) (h2 : n % 2 = 0) (hr : r ∈ cfg.nodes)
    (hshuf : ∀ k l, List.Perm (o.shuffleRoots k l) l)
    (hwalk : ∀ k len : Nat, ∃ t : Node, ∃ cw : List Node,
      (o.walkRun k [r] len 1).headD [] = t :: cw ∧ ∃ x ∈ cw, x ≠ t) :
    ∀ N : Nat, ∃ fuel : Nat, ∃ st : GenState,
      generator cfg o wgt (PyVal.pyInt n) fuel = Except.ok st ∧ N ≤ st.yielded.length := by
  intro N
  set sdist := cfg.allNodes.map fun nd => wgt (cfg.degree nd) with hsdist
  set bs := n.toNat with hbs
  have hbs2 : 2 ≤ bs := by omega
  have hbse : bs % 2 = 0 := by omega
  refine ⟨N * (bs / 2), runIters cfg o sdist bs (N * (bs / 2)) (initState cfg),
    generator_ok_eq cfg o wgt n (N * (bs / 2)) h1 h2, ?_⟩
  set st := runIters cfg o sdist bs (N * (bs / 2)) (initState cfg) with hst
  have hInv : Inv cfg o sdist bs st :=
    inv_runIters cfg o sdist bs (N * (bs / 2)) (initState cfg) hbs2 hbse
      (inv_init cfg o sdist bs (by omega))
  have hgrow : (initState cfg).posTrace.length + N * (bs / 2) ≤ st.posTrace.length :=
    runIters_growth cfg o sdist bs r (N * (bs / 2)) (initState cfg) hr hshuf hwalk
  have hgrow' : N * (bs / 2) ≤ st.posTrace.length := by
    simpa [initState] using hgrow
  have hpl := hInv.posLen
  have hacc : st.positive_pairs.length < bs / 2 := by
    have := hInv.counter_eq
    have := hInv.counter_lt
    omega
  have hbcN : N ≤ st.batchCount := by
    by_contra hlt
    have hble : st.batchCount + 1 ≤ N := by omega
    have hmul : (st.batchCount + 1) * (bs / 2) ≤ N * (bs / 2) :=
      Nat.mul_le_mul_right (bs / 2) hble
    rw [Nat.succ_mul] at hmul
    omega
  rw [hInv.yieldLen]
  exact hbcN

/-- Witness for C8 at a concrete input: on `cfg1`/`orc1` (root `0`, every
walk `[0, 1]`), three batches of size 2 are obtainable. -/
theorem C8_witness :
    ∃ fuel : Nat, ∃ st : GenState,
      generator cfg1 orc1 (fun d => d) (PyVal.pyInt 2) fuel = Except.ok st ∧
        3 ≤ st.yielded.length :=
  C8_never_exhausts cfg1 orc1 (fun d => d) 2 0 (by decide) (by decide) (by decide)
    (fun _ l => List.Perm.refl l)
    (fun k len => ⟨0, [1], rfl, ⟨1, by decide, by decide⟩⟩) 3

end StellarGraph
